import Mathlib

/-! speedtest-exporter: a shallow embedding of the run loop

The development follows the Go sources `speedtest/speedtest.go`,
`speedtest/config.go` and `run.go`.

Conventions of the embedding

* `float64` values are modelled by exact rationals (`ℚ`): a value is the number a
  float denotes, and the rounding of float arithmetic is not modelled.
* Go `int` and `int64` are modelled by `Int`; where the source can overflow the
  result is wrapped into the signed 64-bit range explicitly.
* An `error` value is modelled by its message, `nil` by `none`.
* Everything the program asks of its environment (the child process, the
  cancellation context, the clock, the ticker) is an explicit oracle argument.
* What the program does to its environment is explicit state: the metrics
  registry, the number of clock readings taken, and the list of the commands it
  has run.
* Logging has no effect on any modelled state and is left out.
-/

set_option autoImplicit false

namespace speedtest

/-! ## speedtest/speedtest.go -/

/-- The Go type `Ping`. -/
structure Ping where
  Jitter : ℚ
  Latency : ℚ
deriving DecidableEq

/-- The Go type `Speed`. -/
structure Speed where
  Bandwidth : ℚ
  Bytes : ℚ
  Elapsed : ℚ
deriving DecidableEq

/-- The Go type `Server`. -/
structure Server where
  ID : Int
  Name : String
  Location : String
  Country : String
  Host : String
  Port : Int
deriving DecidableEq

/-- The Go type `TestResults`. -/
structure TestResults where
  Ping : Ping
  Download : Speed
  Upload : Speed
  PacketLoss : ℚ
  ISP : String
  Server : Server
deriving DecidableEq

/-- The composite literal `TestResults{}`: every field has its zero value. -/
def TestResults.zero : TestResults :=
  { Ping := { Jitter := 0, Latency := 0 }
    Download := { Bandwidth := 0, Bytes := 0, Elapsed := 0 }
    Upload := { Bandwidth := 0, Bytes := 0, Elapsed := 0 }
    PacketLoss := 0
    ISP := ""
    Server := { ID := 0, Name := "", Location := "", Country := "", Host := "", Port := 0 } }

/-- The method `Ping.IsZero`. -/
def Ping.IsZero (p : Ping) : Bool :=
  p.Latency == 0 && p.Jitter == 0

/-- The method `Ping.IsMissingData`. -/
def Ping.IsMissingData (p : Ping) : Bool :=
  p.Latency == 0

/-- The method `Speed.IsZero`. -/
def Speed.IsZero (s : Speed) : Bool :=
  s.Bandwidth == 0 && s.Bytes == 0 && s.Elapsed == 0

/-- The method `Speed.IsMissingData`. -/
def Speed.IsMissingData (s : Speed) : Bool :=
  s.Bandwidth == 0 || s.Bytes == 0 || s.Elapsed == 0

/-- The method `Server.IsZero`. -/
def Server.IsZero (s : Server) : Bool :=
  s.ID == 0 &&
    s.Name == "" &&
    s.Location == "" &&
    s.Country == "" &&
    s.Host == "" &&
    s.Port == 0

/-- The method `Server.IsMissingData`. -/
def Server.IsMissingData (s : Server) : Bool :=
  s.ID == 0 ||
    s.Name == "" ||
    s.Location == "" ||
    s.Country == "" ||
    s.Host == "" ||
    s.Port == 0

/-- The method `TestResults.IsMissingData`. Packet loss is not consulted. -/
def TestResults.IsMissingData (tr : TestResults) : Bool :=
  tr.Ping.IsMissingData ||
    tr.Download.IsMissingData ||
    tr.Upload.IsMissingData ||
    tr.Server.IsMissingData ||
    tr.ISP == ""

/-- The Go type `Command` of `config.go`. -/
structure Command where
  Name : String
  Args : List String
deriving DecidableEq

/-- The standard library's `strconv.Itoa`: the decimal text of an integer, with a
leading minus sign for a negative one. -/
def Itoa (n : Int) : String :=
  toString n

end speedtest

namespace multierror

/-- The library type `multierror.Error` of hashicorp/go-multierror: the list of
the errors collected so far. -/
structure Error where
  Errors : List String
deriving DecidableEq

/-- The value `new(multierror.Error)`. -/
def new : Error :=
  { Errors := [] }

/-- The library function `multierror.Append(err, e)` for a first argument of type
`*multierror.Error` and one plain error: as the library documents, a nil error is
ignored, any other one is added at the end. -/
def Append (err : Error) (e : Option String) : Error :=
  match e with
  | none => err
  | some x => { Errors := err.Errors ++ [x] }

/-- The library method `ErrorOrNil`: nil when no error was collected. -/
def ErrorOrNil (e : Error) : Option Error :=
  if e.Errors.length = 0 then none else some e

end multierror

namespace speedtest

/-- One call of `c.Run()`: the command name and the arguments that
`exec.Command(cmd.Name, args...)` was given. -/
structure Invocation where
  name : String
  args : List String
deriving DecidableEq

/-- The function `RunTest`. The two calls that leave the program are arguments:
`exec name args` is what running the child process gives (an error of `c.Run()`, or
the captured standard output) and `unmarshal` is `json.Unmarshal` into a
`TestResults`. `ran` lists the commands run so far; `c.Run()` adds its command to
it. The result is the Go pair `(TestResults, error)`, and the commands run. -/
def RunTest (exec : String → List String → Except String String)
    (unmarshal : String → Except String TestResults)
    (cmd : Command) (serverID : Int) (ran : List Invocation) :
    (TestResults × Option String) × List Invocation :=
  let args := cmd.Args ++ ["-s", Itoa serverID]
  let ran := ran ++ [{ name := cmd.Name, args := args }]
  match exec cmd.Name args with
  | .error err => ((TestResults.zero, some ("failed to run speed test: " ++ err)), ran)
  | .ok stdout =>
    match unmarshal stdout with
    | .error err => ((TestResults.zero, some ("failed to unmarshal results: " ++ err)), ran)
    | .ok results => ((results, none), ran)

/-- What the environment answers during one call of `RunTests`: `isClosed i` is
the result of `isClosed(ctx)` at the check of loop iteration `i` (counted from 0),
and `exec i` is the behaviour of the child process started in iteration `i`. -/
structure TestsEnv where
  isClosed : Nat → Bool
  exec : Nat → String → List String → Except String String

/-- The local variables `results` and `merr` of `RunTests`, and the commands that
the calls of `RunTest` have run so far. -/
structure RunTestsVars where
  results : List TestResults
  merr : multierror.Error
  ran : List Invocation

/-- What `RunTests` returns: the Go pair `(results, merr.ErrorOrNil())`, and the
commands that its calls of `RunTest` have run, in order. -/
structure RunTestsReturn where
  results : List TestResults
  err : Option multierror.Error
  ran : List Invocation

/-- The `for _, serverID := range serverIDs` loop of `RunTests`, from iteration
`i` on; the list holds the ids still to visit. -/
def RunTests.loop (env : TestsEnv) (unmarshal : String → Except String TestResults)
    (cmd : Command) : Nat → List Int → RunTestsVars → RunTestsVars
  | _, [], v => v
  | i, serverID :: rest, v =>
    if env.isClosed i then
      v
    else
      let r := RunTest (env.exec i) unmarshal cmd serverID v.ran
      RunTests.loop env unmarshal cmd (i + 1) rest
        { results := v.results ++ [r.1.1]
          merr := multierror.Append v.merr r.1.2
          ran := r.2 }

/-- The function `RunTests`. Both of its return statements return
`results, merr.ErrorOrNil()`. The list of commands starts empty, so that the
result lists the commands run during this call. -/
def RunTests (env : TestsEnv) (unmarshal : String → Except String TestResults)
    (cmd : Command) (serverIDs : List Int) : RunTestsReturn :=
  let v := RunTests.loop env unmarshal cmd 0 serverIDs
    { results := [], merr := multierror.new, ran := [] }
  { results := v.results, err := multierror.ErrorOrNil v.merr, ran := v.ran }

end speedtest

namespace time

/-! ## The parts of the standard library's package `time` that the program uses -/

/-- The constant `time.Millisecond`, in nanoseconds. -/
def Millisecond : Int := 1000000

/-- The constant `time.Second`, in nanoseconds. -/
def Second : Int := 1000000000

/-- The largest `int64`, which is also the largest `time.Duration`. -/
def maxDuration : Int := 2 ^ 63 - 1

/-- The smallest `int64`, which is also the smallest `time.Duration`. -/
def minDuration : Int := -(2 ^ 63)

/-- The value of an integer result in two's complement `int64`. -/
def wrapInt64 (n : Int) : Int :=
  (n + 2 ^ 63) % 2 ^ 64 - 2 ^ 63

/-- The conversion `time.Duration(x)` of a `float64`: the fraction is discarded
(truncation towards zero). For a value outside the `int64` range Go leaves the
result to the implementation; the code compiled for amd64 yields the smallest
`int64`. -/
def Duration.ofFloat64 (x : ℚ) : Int :=
  let t : Int := if 0 ≤ x then ⌊x⌋ else ⌈x⌉
  if minDuration ≤ t ∧ t ≤ maxDuration then t else minDuration

/-- The product of two durations in `int64` arithmetic. -/
def Duration.mul (d e : Int) : Int :=
  wrapInt64 (d * e)

/-- The method `Duration.Seconds`: `float64(d / Second) + float64(d % Second) / 1e9`,
with Go's truncated division and remainder. -/
def Duration.Seconds (d : Int) : ℚ :=
  ((Int.tdiv d Second : Int) : ℚ) + ((Int.tmod d Second : Int) : ℚ) / 1000000000

/-- A reading of `time.Now()`: the wall clock in whole seconds since the epoch
(what `Unix()` returns) and the monotonic clock in nanoseconds. -/
structure Time where
  unix : Int
  mono : Int
deriving DecidableEq

/-- The method `Time.Unix`. -/
def Time.Unix (t : Time) : Int :=
  t.unix

/-- The helper `subMono` of `Time.Sub`: the difference of two monotonic readings,
saturated at the ends of the `int64` range. -/
def subMono (t u : Int) : Int :=
  let d := wrapInt64 (t - u)
  if d < 0 ∧ t > u then maxDuration
  else if d > 0 ∧ t < u then minDuration
  else d

/-- The method `Time.Sub` for two readings of `time.Now()`, which both carry a
monotonic clock value. -/
def Time.Sub (t u : Time) : Int :=
  subMono t.mono u.mono

/-- The digit byte `byte(digit) + 48` of `fmtFrac` and `fmtInt`. -/
def digitByte (digit : Nat) : Char :=
  Char.ofNat (digit + 48)

/-- The `for i := 0; i < prec; i++` loop of `fmtFrac`; `buf` is the text written
so far, which grows at the front. -/
def fmtFrac.loop : Nat → List Char → Nat → Bool → List Char × Nat × Bool
  | 0, buf, v, print => (buf, v, print)
  | n + 1, buf, v, print =>
    let digit := v % 10
    let print := print || digit != 0
    let buf := if print then digitByte digit :: buf else buf
    fmtFrac.loop n buf (v / 10) print

/-- The function `fmtFrac`: writes the fraction of `v / 10^prec` in front of `buf`,
without trailing zeros, and returns `v / 10^prec`. -/
def fmtFrac (buf : List Char) (v : Nat) (prec : Nat) : List Char × Nat :=
  let r := fmtFrac.loop prec buf v false
  (if r.2.2 then '.' :: r.1 else r.1, r.2.1)

/-- The `for v > 0` loop of `fmtInt`. It runs once per decimal digit of `v`, so
`v` itself is fuel enough. -/
def fmtInt.loop : Nat → List Char → Nat → List Char
  | 0, buf, _ => buf
  | fuel + 1, buf, v =>
    if v > 0 then fmtInt.loop fuel (digitByte (v % 10) :: buf) (v / 10) else buf

/-- The function `fmtInt`: writes the decimal text of `v` in front of `buf`. -/
def fmtInt (buf : List Char) (v : Nat) : List Char :=
  if v = 0 then '0' :: buf else fmtInt.loop v buf v

/-- The method `Duration.format`, as the text it leaves in the buffer. `u` is the
magnitude `uint64(d)`, negated for a negative `d`. -/
def Duration.format (d : Int) : List Char :=
  let u : Nat := d.natAbs
  let neg : Bool := decide (d < 0)
  let body : List Char :=
    if u < 1000000000 then
      if u = 0 then
        ['0', 's']
      else
        let unitPrec : List Char × Nat :=
          if u < 1000 then (['n', 's'], 0)
          else if u < 1000000 then (['µ', 's'], 3)
          else (['m', 's'], 6)
        let r := fmtFrac unitPrec.1 u unitPrec.2
        fmtInt r.1 r.2
    else
      let r := fmtFrac ['s'] u 9
      let u := r.2
      let buf := fmtInt r.1 (u % 60)
      let u := u / 60
      if u > 0 then
        let buf := fmtInt ('m' :: buf) (u % 60)
        let u := u / 60
        if u > 0 then fmtInt ('h' :: buf) u else buf
      else
        buf
  if neg then '-' :: body else body

/-- The method `Duration.String`. -/
def Duration.String (d : Int) : String :=
  String.mk (Duration.format d)

end time

namespace strings

/-! ## The parts of the standard library's package `strings` that the program uses -/

/-- The function `strings.HasPrefix`. -/
def HasPrefix (s pre : String) : Bool :=
  pre.data.isPrefixOf s.data

/-- The function `strings.HasSuffix`. -/
def HasSuffix (s suf : String) : Bool :=
  suf.data.isSuffixOf s.data

/-- The function `strings.Trim`: removes from both ends of `s` every character
that occurs in `cutset`. -/
def Trim (s cutset : String) : String :=
  String.mk
    (((s.data.dropWhile (fun c => cutset.data.contains c)).reverse.dropWhile
      (fun c => cutset.data.contains c)).reverse)

end strings

namespace speedtest

/-! ## speedtest/config.go -/

/-- The Go type `string`, under a name that the method `jsonDuration.String` does
not hide. -/
abbrev Text := String

/-- The Go type `jsonDuration`, which embeds a `time.Duration`. -/
structure jsonDuration where
  Duration : Int
deriving DecidableEq

/-- The method `jsonDuration.String`. -/
def jsonDuration.String (d : jsonDuration) : String :=
  time.Duration.String d.Duration

/-- The method `jsonDuration.GoString`. -/
def jsonDuration.GoString (d : jsonDuration) : Text :=
  d.String

/-- The method `jsonDuration.MarshalJSON`. The byte slice is modelled by the
string it was converted from; the error is always nil. -/
def jsonDuration.MarshalJSON (d : jsonDuration) : Text × Option Text :=
  (d.String, none)

/-- The method `jsonDuration.UnmarshalJSON`. `ParseDuration` is the standard
library's `time.ParseDuration`. The receiver is a pointer: the result is the value
it points to afterwards, and the returned error. -/
def jsonDuration.UnmarshalJSON (ParseDuration : Text → Except Text Int)
    (d : jsonDuration) (b : Text) : jsonDuration × Option Text :=
  let str := b
  if !strings.HasPrefix str "\"" then
    (d, some ("invalid duration1: " ++ str))
  else if !strings.HasSuffix str "\"" then
    (d, some ("invalid duration2: " ++ str))
  else
    let str := strings.Trim str "\""
    match ParseDuration str with
    | .error err => (d, some err)
    | .ok dur => ({ Duration := dur }, none)

end speedtest

namespace main

open speedtest

/-! ## run.go -/

/-- A `prometheus.GaugeVec` as the program can see it: the series that exist, by
their label values, each with its current value. -/
abbrev GaugeVec := List String → Option ℚ

/-- The call `vec.WithLabelValues(labels...).Set(v)`: the series with these label
values is created if it does not exist, and its value becomes `v`. -/
def GaugeVec.Set (vec : GaugeVec) (labels : List String) (v : ℚ) : GaugeVec :=
  fun l => if l = labels then some v else vec l

/-- The metrics that `run.go` registers: counter `runs`, the five plain gauges,
and the eight gauge vectors over `commonLabels`. -/
@[ext]
structure Metrics where
  runs : ℚ
  running : ℚ
  runTime : ℚ
  lastStartTime : ℚ
  lastFinishTime : ℚ
  waitTime : ℚ
  downloadSpeed : GaugeVec
  downloadBytes : GaugeVec
  downloadElapsed : GaugeVec
  uploadSpeed : GaugeVec
  uploadBytes : GaugeVec
  uploadElapsed : GaugeVec
  ping : GaugeVec
  jitter : GaugeVec

/-- The registry right after start-up: counter and gauges at zero, no series in any
gauge vector. -/
def Metrics.initial : Metrics :=
  { runs := 0, running := 0, runTime := 0, lastStartTime := 0, lastFinishTime := 0
    waitTime := 0
    downloadSpeed := fun _ => none
    downloadBytes := fun _ => none
    downloadElapsed := fun _ => none
    uploadSpeed := fun _ => none
    uploadBytes := fun _ => none
    uploadElapsed := fun _ => none
    ping := fun _ => none
    jitter := fun _ => none }

/-- The fields of the Go type `runner` that the run loop reads. -/
structure runner where
  cmd : Command
  serverIDs : List Int
  tickRate : Int

/-- The slice `labels` that `runSpeedTests` builds for one result. -/
def resultLabels (result : TestResults) : List String :=
  [Itoa result.Server.ID, result.Server.Name, result.Server.Location]

/-- The body of the loop `for _, result := range results` of `runSpeedTests`. -/
def recordResult (m : Metrics) (result : TestResults) : Metrics :=
  let labels := resultLabels result
  let m := { m with downloadSpeed := m.downloadSpeed.Set labels result.Download.Bandwidth }
  let m := { m with downloadBytes := m.downloadBytes.Set labels result.Download.Bytes }
  let m := { m with downloadElapsed := m.downloadElapsed.Set labels result.Download.Elapsed }
  let m := { m with uploadSpeed := m.uploadSpeed.Set labels result.Upload.Bandwidth }
  let m := { m with uploadBytes := m.uploadBytes.Set labels result.Upload.Bytes }
  let m := { m with uploadElapsed := m.uploadElapsed.Set labels result.Upload.Elapsed }
  let rawPing := time.Duration.mul (time.Duration.ofFloat64 result.Ping.Latency) time.Millisecond
  let rawJitter := time.Duration.mul (time.Duration.ofFloat64 result.Ping.Jitter) time.Millisecond
  let m := { m with ping := m.ping.Set labels (time.Duration.Seconds rawPing) }
  { m with jitter := m.jitter.Set labels (time.Duration.Seconds rawJitter) }

/-- The loop `for _, result := range results` of `runSpeedTests`. -/
def recordResults (m : Metrics) (results : List TestResults) : Metrics :=
  results.foldl recordResult m

/-- What `run.go` reads and writes outside its own variables: the metrics
registry, the number of readings of `time.Now()` taken so far (the next reading is
the one with this index), and the commands run so far. -/
structure World where
  metrics : Metrics
  clock : Nat
  ran : List Invocation

/-- The world right after start-up: the initial registry, no reading taken, no
command run. -/
def World.initial : World :=
  { metrics := Metrics.initial, clock := 0, ran := [] }

/-- What the environment answers during one call of `runSpeedTests`: the result of
`r.closing()` on entry, and the answers given to `RunTests`. -/
structure CycleEnv where
  closing : Bool
  tests : TestsEnv

/-- The method `runner.runSpeedTests`. `now n` is the `n`-th reading of
`time.Now()` since the program started; the call takes three readings, in this
order: `start`, the reading for `dur`, and the one in the deferred function, which
runs last. -/
def runSpeedTests (r : runner) (unmarshal : String → Except String TestResults)
    (now : Nat → time.Time) (env : CycleEnv) (w : World) : World :=
  if env.closing then
    w
  else
    let start := now w.clock
    let clock := w.clock + 1
    let m := { w.metrics with running := 1 }
    let m := { m with lastStartTime := (start.Unix : ℚ) }
    let ret := RunTests env.tests unmarshal r.cmd r.serverIDs
    let ran := w.ran ++ ret.ran
    let m := { m with runs := m.runs + 1 }
    let m := recordResults m ret.results
    let dur := (now clock).Sub start
    let clock := clock + 1
    let m := { m with runTime := time.Duration.Seconds dur }
    let m := { m with lastFinishTime := ((now clock).Unix : ℚ) }
    let clock := clock + 1
    let m := { m with running := 0 }
    { metrics := m, clock := clock, ran := ran }

/-- The two cases of the `select` statement of `runner.run`. -/
inductive SelectCase where
  | done
  | tick
deriving DecidableEq

/-- What the environment answers during `runner.run`: `json.Unmarshal`; the
readings of `time.Now()`, in the order they are taken; for the `j`-th call of
`runSpeedTests` (0 is the start-up call) its `CycleEnv`; and for the `j`-th
execution of the `select` statement the case that is taken. -/
structure RunEnv where
  unmarshal : String → Except String TestResults
  now : Nat → time.Time
  cycle : Nat → CycleEnv
  select : Nat → SelectCase

/-- The state of `runner.run` between two executions of `select`: the world and
the local variable `start`. -/
structure RunState where
  world : World
  start : time.Time

/-- The `for` loop of `runner.run`, from the `j`-th execution of `select` on. Every
tick case is followed by another `select`, so the tick case of execution `j` makes
call `j + 1` of `runSpeedTests`. The loop ends only through the done case; `none`
means that `fuel` executions of `select` did not reach it. -/
def runner.run.loop (r : runner) (env : RunEnv) : Nat → Nat → RunState → Option RunState
  | 0, _, _ => none
  | fuel + 1, j, s =>
    match env.select j with
    | SelectCase.done => some s
    | SelectCase.tick =>
      let wt := (env.now s.world.clock).Sub s.start
      let w : World :=
        { s.world with
          clock := s.world.clock + 1
          metrics := { s.world.metrics with waitTime := time.Duration.Seconds wt } }
      let start := env.now w.clock
      let w : World := { w with clock := w.clock + 1 }
      let w := runSpeedTests r env.unmarshal env.now (env.cycle (j + 1)) w
      runner.run.loop r env fuel (j + 1) { world := w, start := start }

/-- The method `runner.run`: `time.NewTicker(r.tickRate)`, which panics for a tick
rate that is not positive; the start-up call of `runSpeedTests`; the initialisation
of `start`; and the loop. An `error` result is the panic, `none` means that `fuel`
executions of `select` did not reach the done case. -/
def runner.run (r : runner) (env : RunEnv) (fuel : Nat) (w : World) :
    Option (Except String RunState) :=
  if r.tickRate ≤ 0 then
    some (.error "non-positive interval for NewTicker")
  else
    let w := runSpeedTests r env.unmarshal env.now (env.cycle 0) w
    let start := env.now w.clock
    let w : World := { w with clock := w.clock + 1 }
    (runner.run.loop r env fuel 0 { world := w, start := start }).map Except.ok

/-- The two registries hold the same value, or both none, in each of the eight
gauge vectors for the label values `l`. -/
def AgreeAt (l : List String) (m m' : Metrics) : Prop :=
  m.downloadSpeed l = m'.downloadSpeed l ∧ m.downloadBytes l = m'.downloadBytes l ∧
    m.downloadElapsed l = m'.downloadElapsed l ∧ m.uploadSpeed l = m'.uploadSpeed l ∧
    m.uploadBytes l = m'.uploadBytes l ∧ m.uploadElapsed l = m'.uploadElapsed l ∧
    m.ping l = m'.ping l ∧ m.jitter l = m'.jitter l

end main

namespace examples

open speedtest main

/-! ## Concrete inputs -/

/-- The command of the examples. -/
def cmd : Command :=
  { Name := "speedtest", Args := ["-f", "json"] }

/-- The result of target 100 in the scenario of the specification. -/
def result100 : TestResults :=
  { Ping := { Jitter := 1, Latency := 10 }
    Download := { Bandwidth := 5000, Bytes := 500000, Elapsed := 100 }
    Upload := { Bandwidth := 2000, Bytes := 200000, Elapsed := 100 }
    PacketLoss := 0
    ISP := "ISP"
    Server := { ID := 100, Name := "A", Location := "L", Country := "C", Host := "h", Port := 8080 } }

/-- A `json.Unmarshal` that knows one output text, which stands for the JSON text
of `result100`. -/
def unmarshal (stdout : String) : Except String TestResults :=
  if stdout = "output of server 100" then .ok result100
  else .error "unexpected end of JSON input"

/-- The context is never closed, and every child process exits with status 1. -/
def allFail : TestsEnv :=
  { isClosed := fun _ => false
    exec := fun _ _ _ => .error "exit status 1" }

/-- The scenario of the specification: the context is never closed, the first
child process (target 100) prints its result, every later one exits with
status 1. -/
def firstSucceeds : TestsEnv :=
  { isClosed := fun _ => false
    exec := fun i _ _ => if i = 0 then .ok "output of server 100" else .error "exit status 1" }

/-- The context is found closed from the second check on; every child process
exits with status 1. -/
def closedAfterOne : TestsEnv :=
  { isClosed := fun i => decide (1 ≤ i)
    exec := fun _ _ _ => .error "exit status 1" }

/-- A result in which every field is set, except that the jitter is zero. -/
def zeroJitter : TestResults :=
  { result100 with Ping := { Jitter := 0, Latency := 10 } }

/-- A complete result with a latency of 10.5 ms and a jitter of 0.5 ms. -/
def fractional : TestResults :=
  { result100 with Ping := { Jitter := 1 / 2, Latency := 21 / 2 } }

/-- A runner with the single target 200. -/
def runner200 : runner :=
  { cmd := cmd, serverIDs := [200], tickRate := 1000000000 }

/-- A cycle that is not cancelled, in which every child process exits with
status 1. -/
def cycleAllFail : CycleEnv :=
  { closing := false, tests := allFail }

/-- A clock whose every reading is the epoch. -/
def clockZero : Nat → time.Time :=
  fun _ => { unix := 0, mono := 0 }

/-- The readings of the clock in the run of the example, in whole seconds after
the first one. The start-up cycle takes readings 0 to 2: it begins at 0 s and has
returned at 5 s. Reading 3 initialises `start` at 5 s. The first tick comes at
60 s (readings 4 and 5) and its cycle takes readings 6 to 8, until 67 s. The
second tick comes at 120 s (readings 9 and 10), and every later reading is at
127 s. -/
def readings : List Int :=
  [0, 5, 5, 5, 60, 60, 60, 67, 67, 120, 120]

/-- The clock of the example: the wall clock starts at 1000 s after the epoch, the
monotonic clock at 0. -/
def clock (n : Nat) : time.Time :=
  { unix := 1000 + readings.getD n 127, mono := readings.getD n 127 * 1000000000 }

/-- A run of the loop in which the first `n` executions of `select` take the tick
case and the next one the done case. No cycle is cancelled and every child process
exits with status 1. -/
def ticksThenDone (n : Nat) : RunEnv :=
  { unmarshal := unmarshal
    now := clock
    cycle := fun _ => cycleAllFail
    select := fun j => if j < n then SelectCase.tick else SelectCase.done }

end examples

/-! ## Theorems -/

namespace speedtest

theorem Append_Errors (err : multierror.Error) (e : Option String) :
    (multierror.Append err e).Errors = err.Errors ++ e.toList := by
  cases e <;> simp [multierror.Append]

theorem ErrorOrNil_ne_none (e : multierror.Error) :
    multierror.ErrorOrNil e ≠ none ↔ e.Errors ≠ [] := by
  unfold multierror.ErrorOrNil
  by_cases h : e.Errors = []
  · simp [h]
  · have : e.Errors.length ≠ 0 := by simpa using h
    simp [h, this]

/-- Every call of `RunTest` runs exactly one command: the configured one, with
`-s` and the decimal server id after the configured arguments. -/
theorem RunTest_ran (exec : String → List String → Except String String)
    (unmarshal : String → Except String TestResults) (cmd : Command) (serverID : Int)
    (ran : List Invocation) :
    (RunTest exec unmarshal cmd serverID ran).2
      = ran ++ [{ name := cmd.Name, args := cmd.Args ++ ["-s", Itoa serverID] }] := by
  simp only [RunTest]
  split
  · rfl
  · split <;> rfl

/-- What `RunTest` returns does not depend on the commands run before. -/
theorem RunTest_fst (exec : String → List String → Except String String)
    (unmarshal : String → Except String TestResults) (cmd : Command) (serverID : Int)
    (ran : List Invocation) :
    (RunTest exec unmarshal cmd serverID ran).1 = (RunTest exec unmarshal cmd serverID []).1 := by
  simp only [RunTest]
  split
  · rfl
  · split <;> rfl

/-- The loop of `RunTests` visits the ids up to the first check that finds the
context closed: `n` ids are visited, for each visited id `RunTest` runs its command,
its result gets one entry in `results` (whatever its outcome), and its error, if
any, is added to `merr`. -/
theorem RunTests.loop_spec (env : TestsEnv) (unmarshal : String → Except String TestResults)
    (cmd : Command) (rest : List Int) :
    ∀ (i : Nat) (v : RunTestsVars), ∃ n, n ≤ rest.length ∧
      (∀ k, k < n → env.isClosed (i + k) = false) ∧
      (n < rest.length → env.isClosed (i + n) = true) ∧
      (RunTests.loop env unmarshal cmd i rest v).ran = v.ran ++ (rest.take n).map
          (fun id => { name := cmd.Name, args := cmd.Args ++ ["-s", Itoa id] }) ∧
      (RunTests.loop env unmarshal cmd i rest v).results =
        v.results ++ ((rest.take n).enumFrom i).map
          (fun p => (RunTest (env.exec p.1) unmarshal cmd p.2 []).1.1) ∧
      (RunTests.loop env unmarshal cmd i rest v).merr.Errors =
        v.merr.Errors ++ ((rest.take n).enumFrom i).filterMap
          (fun p => (RunTest (env.exec p.1) unmarshal cmd p.2 []).1.2) := by
  induction rest with
  | nil =>
    intro i v
    exact ⟨0, by simp [RunTests.loop]⟩
  | cons id rest ih =>
    intro i v
    by_cases hc : env.isClosed i = true
    · refine ⟨0, by simp, by simp, fun _ => by simpa using hc, ?_, ?_, ?_⟩ <;>
        simp [RunTests.loop, hc]
    · have hc' : env.isClosed i = false := by simpa using hc
      obtain ⟨n, hn, hopen, hclosed, hran, hres, herr⟩ := ih (i + 1)
        { results := v.results ++ [(RunTest (env.exec i) unmarshal cmd id v.ran).1.1]
          merr := multierror.Append v.merr (RunTest (env.exec i) unmarshal cmd id v.ran).1.2
          ran := (RunTest (env.exec i) unmarshal cmd id v.ran).2 }
      refine ⟨n + 1, by simpa using hn, ?_, ?_, ?_, ?_, ?_⟩
      · intro k hk
        cases k with
        | zero => simpa using hc'
        | succ k =>
          have := hopen k (by omega)
          rw [← this]; congr 1; omega
      · intro h
        have := hclosed (by simpa using h)
        rw [← this]; congr 1; omega
      · simp only [RunTests.loop, hc', Bool.false_eq_true, if_false]
        rw [hran, RunTest_ran]; simp
      · simp only [RunTests.loop, hc', Bool.false_eq_true, if_false]
        rw [hres, RunTest_fst]; simp
      · simp only [RunTests.loop, hc', Bool.false_eq_true, if_false]
        rw [herr, Append_Errors, RunTest_fst]
        cases h2 : (RunTest (env.exec i) unmarshal cmd id []).1.2 <;> simp [h2]

/-- The number of targets that `RunTests` visits is fixed by the checks of the
context: it is the `N` such that the checks before the first `N` targets find the
context open and the check before target `N + 1`, if there is one, finds it
closed. -/
theorem RunTests_spec (env : TestsEnv)
    (unmarshal : String → Except String TestResults) (cmd : Command)
    (serverIDs : List Int) (N : Nat)
    (hN : N ≤ serverIDs.length)
    (hopen : ∀ i, i < N → env.isClosed i = false)
    (hclosed : N < serverIDs.length → env.isClosed N = true) :
    (RunTests env unmarshal cmd serverIDs).ran = (serverIDs.take N).map
        (fun id => { name := cmd.Name, args := cmd.Args ++ ["-s", Itoa id] }) ∧
      (RunTests env unmarshal cmd serverIDs).results =
        ((serverIDs.take N).enumFrom 0).map
          (fun p => (RunTest (env.exec p.1) unmarshal cmd p.2 []).1.1) ∧
      (RunTests env unmarshal cmd serverIDs).err =
        multierror.ErrorOrNil
          { Errors := (((serverIDs.take N).enumFrom 0).filterMap
              (fun p => (RunTest (env.exec p.1) unmarshal cmd p.2 []).1.2)) } := by
  obtain ⟨n, hn, hopen', hclosed', hran, hres, herr⟩ :=
    RunTests.loop_spec env unmarshal cmd serverIDs 0
      { results := [], merr := multierror.new, ran := [] }
  have hnN : n = N := by
    rcases Nat.lt_trichotomy n N with h | h | h
    · have h1 := hopen n h
      have h2 := hclosed' (by omega)
      simp [h1] at h2
    · exact h
    · have h1 := hopen' N h
      have h2 := hclosed (by omega)
      simp [h2] at h1
  subst hnN
  refine ⟨by simpa [RunTests] using hran, by simpa [RunTests] using hres, ?_⟩
  have hE : (RunTests.loop env unmarshal cmd 0 serverIDs
      { results := [], merr := multierror.new, ran := [] }).merr
        = { Errors := (((serverIDs.take n).enumFrom 0).filterMap
              (fun p => (RunTest (env.exec p.1) unmarshal cmd p.2 []).1.2)) } := by
    have h := herr
    simp only [multierror.new, List.nil_append] at h
    cases hm : (RunTests.loop env unmarshal cmd 0 serverIDs
      { results := [], merr := { Errors := [] }, ran := [] }).merr with
    | mk es =>
      simp only [multierror.new]
      rw [hm] at h ⊢
      simpa using h
  simp only [RunTests]
  rw [hE]

/-- C1: `RunTests` appends the value returned by `RunTest` to `results` for every
target it visits, also when the invocation failed. With all invocations failing
on the target list `[200]` the returned sequence has one entry, the zero
`TestResults`, and is not empty; in the scenario with targets `[100, 200]` where
only target 100 succeeds it has two entries, not one. -/
theorem RunTests_keeps_failed_entries :
    (RunTests examples.allFail examples.unmarshal examples.cmd [200]).results
        = [TestResults.zero] ∧
      (RunTests examples.allFail examples.unmarshal examples.cmd [200]).err
        = some { Errors := ["failed to run speed test: exit status 1"] } ∧
      (RunTests examples.firstSucceeds examples.unmarshal examples.cmd [100, 200]).results
        = [examples.result100, TestResults.zero] ∧
      (RunTests examples.firstSucceeds examples.unmarshal examples.cmd [100, 200]).err
        = some { Errors := ["failed to run speed test: exit status 1"] } := by
  refine ⟨rfl, rfl, rfl, rfl⟩

/-- C2: if the checks before the first `N` targets find the context open and the
check before target `N + 1` (when there is one) finds it closed, then, whatever the
outcomes of the invocations are, the commands that `RunTests` runs are those of
`RunTest` for the first `N` targets, once each and in input order, and no other;
`results` holds what these `N` calls of `RunTest` returned, in order, and the error
is built from the errors they returned; for `N = 0` the result sequence is empty
and the error nil. -/
theorem RunTests_invokes_first_N (env : TestsEnv)
    (unmarshal : String → Except String TestResults) (cmd : Command)
    (serverIDs : List Int) (N : Nat)
    (hN : N ≤ serverIDs.length)
    (hopen : ∀ i, i < N → env.isClosed i = false)
    (hclosed : N < serverIDs.length → env.isClosed N = true) :
    (RunTests env unmarshal cmd serverIDs).ran = (serverIDs.take N).map
        (fun id => { name := cmd.Name, args := cmd.Args ++ ["-s", Itoa id] }) ∧
      (RunTests env unmarshal cmd serverIDs).results =
        ((serverIDs.take N).enumFrom 0).map
          (fun p => (RunTest (env.exec p.1) unmarshal cmd p.2 []).1.1) ∧
      (RunTests env unmarshal cmd serverIDs).err =
        multierror.ErrorOrNil
          { Errors := (((serverIDs.take N).enumFrom 0).filterMap
              (fun p => (RunTest (env.exec p.1) unmarshal cmd p.2 []).1.2)) } ∧
      (N = 0 → (RunTests env unmarshal cmd serverIDs).results = [] ∧
        (RunTests env unmarshal cmd serverIDs).err = none) := by
  obtain ⟨hran, hres, herr⟩ := RunTests_spec env unmarshal cmd serverIDs N hN hopen hclosed
  refine ⟨hran, hres, herr, ?_⟩
  intro h0
  subst h0
  rw [hres, herr]
  simp [multierror.ErrorOrNil]

/-- Witness of C2: three targets whose child processes all fail, the context closed
from the second check on. One command is run, for target 100; its zero result
and its error are returned. -/
theorem RunTests_invokes_first_N_witness :
    (RunTests examples.closedAfterOne examples.unmarshal examples.cmd [100, 200, 300]).ran
        = [{ name := "speedtest", args := ["-f", "json", "-s", "100"] }] ∧
      (RunTests examples.closedAfterOne examples.unmarshal examples.cmd [100, 200, 300]).results
        = [TestResults.zero] ∧
      (RunTests examples.closedAfterOne examples.unmarshal examples.cmd [100, 200, 300]).err
        = some { Errors := ["failed to run speed test: exit status 1"] } ∧
      ((1 : Nat) = 0 →
        (RunTests examples.closedAfterOne examples.unmarshal examples.cmd [100, 200, 300]).results
          = [] ∧
        (RunTests examples.closedAfterOne examples.unmarshal examples.cmd [100, 200, 300]).err
          = none) :=
  RunTests_invokes_first_N examples.closedAfterOne examples.unmarshal examples.cmd
    [100, 200, 300] 1 (by decide) (by decide) (fun _ => by decide)

/-- C3: let `N` be the number of targets that `RunTests` attempts, as the checks of
the context fix it: the checks before the first `N` targets find it open and the
check before target `N + 1`, if there is one, finds it closed. The error returned
by `RunTests` is non-nil exactly when `RunTest` returned an error for at least one
of these `N` targets; it is nil when all of them succeeded. -/
theorem RunTests_err_iff (env : TestsEnv)
    (unmarshal : String → Except String TestResults) (cmd : Command)
    (serverIDs : List Int) (N : Nat)
    (hN : N ≤ serverIDs.length)
    (hopen : ∀ i, i < N → env.isClosed i = false)
    (hclosed : N < serverIDs.length → env.isClosed N = true) :
    (RunTests env unmarshal cmd serverIDs).err ≠ none ↔
      ∃ i id, i < N ∧ serverIDs[i]? = some id ∧
        (RunTest (env.exec i) unmarshal cmd id []).1.2 ≠ none := by
  obtain ⟨-, -, herr⟩ := RunTests_spec env unmarshal cmd serverIDs N hN hopen hclosed
  rw [herr, ErrorOrNil_ne_none]
  simp only []
  constructor
  · intro h
    obtain ⟨e, he⟩ := List.exists_mem_of_ne_nil _ h
    obtain ⟨p, hp, hpe⟩ := List.mem_filterMap.1 he
    obtain ⟨k, id⟩ := p
    have hk := List.mk_mem_enumFrom_iff_le_and_getElem?_sub.1 hp
    simp only [Nat.sub_zero, List.getElem?_take] at hk
    refine ⟨k, id, ?_, ?_, ?_⟩
    · by_contra hcon
      simp [hcon] at hk
    · by_cases hlt : k < N
      · simpa [hlt] using hk.2
      · simp [hlt] at hk
    · simp at hpe; simp [hpe]
  · rintro ⟨i, id, hi, hget, hfail⟩
    obtain ⟨e, he⟩ := Option.ne_none_iff_exists'.1 hfail
    have hmem : (i, id) ∈ (serverIDs.take N).enumFrom 0 := by
      apply List.mk_mem_enumFrom_iff_le_and_getElem?_sub.2
      simp [List.getElem?_take, hi, hget]
    intro hnil
    have : e ∈ ((serverIDs.take N).enumFrom 0).filterMap
        (fun p => (RunTest (env.exec p.1) unmarshal cmd p.2 []).1.2) :=
      List.mem_filterMap.2 ⟨(i, id), hmem, he⟩
    simp [hnil] at this

/-- Witness of C3: three targets, the context never closed, every child process
failing: all three targets are attempted and the returned error is not nil. -/
theorem RunTests_err_iff_witness :
    (RunTests examples.allFail examples.unmarshal examples.cmd [100, 200, 300]).err ≠ none :=
  (RunTests_err_iff examples.allFail examples.unmarshal examples.cmd [100, 200, 300] 3
    (by decide) (fun _ _ => rfl) (fun h => absurd h (by decide))).2
    ⟨0, 100, by decide, rfl, by decide⟩

/-- C6 (as amended): `TestResults.IsMissingData` is true exactly when the ping
latency is zero, or one of bandwidth, bytes, elapsed of the download or of the
upload record is zero, or the ISP is empty, or the server id or port is zero, or
the server name, location, country or host is empty. Neither the ping jitter nor
the packet loss is consulted. -/
theorem IsMissingData_iff (tr : TestResults) :
    tr.IsMissingData = true ↔
      (tr.Ping.Latency = 0 ∨
        tr.Download.Bandwidth = 0 ∨ tr.Download.Bytes = 0 ∨ tr.Download.Elapsed = 0 ∨
        tr.Upload.Bandwidth = 0 ∨ tr.Upload.Bytes = 0 ∨ tr.Upload.Elapsed = 0 ∨
        tr.ISP = "" ∨
        tr.Server.ID = 0 ∨ tr.Server.Port = 0 ∨
        tr.Server.Name = "" ∨ tr.Server.Location = "" ∨ tr.Server.Country = "" ∨
        tr.Server.Host = "") := by
  simp only [TestResults.IsMissingData, Ping.IsMissingData, Speed.IsMissingData,
    Server.IsMissingData, Bool.or_eq_true, beq_iff_eq]
  tauto

/-- C6, counterexample to the claim as stated: a result whose jitter is zero and
whose other fields are all set is not reported as missing data, although the
claimed condition (which lists the jitter) holds for it. -/
theorem IsMissingData_ignores_jitter :
    ¬ (examples.zeroJitter.IsMissingData = true ↔
      (examples.zeroJitter.Ping.Latency = 0 ∨ examples.zeroJitter.Ping.Jitter = 0 ∨
        examples.zeroJitter.Download.Bandwidth = 0 ∨ examples.zeroJitter.Download.Bytes = 0 ∨
        examples.zeroJitter.Download.Elapsed = 0 ∨
        examples.zeroJitter.Upload.Bandwidth = 0 ∨ examples.zeroJitter.Upload.Bytes = 0 ∨
        examples.zeroJitter.Upload.Elapsed = 0 ∨
        examples.zeroJitter.ISP = "" ∨
        examples.zeroJitter.Server.ID = 0 ∨ examples.zeroJitter.Server.Port = 0 ∨
        examples.zeroJitter.Server.Name = "" ∨ examples.zeroJitter.Server.Location = "" ∨
        examples.zeroJitter.Server.Country = "" ∨ examples.zeroJitter.Server.Host = "")) := by
  intro h
  have hfalse : examples.zeroJitter.IsMissingData = false := by decide
  have htrue := h.2 (Or.inr (Or.inl rfl))
  rw [hfalse] at htrue
  exact Bool.noConfusion htrue

end speedtest

namespace main

open speedtest

theorem Seconds_eq (d : Int) : time.Duration.Seconds d = (d : ℚ) / 1000000000 := by
  unfold time.Duration.Seconds time.Second
  have h := Int.tdiv_add_tmod d 1000000000
  have h2 : ((d : Int) : ℚ)
      = ((1000000000 * d.tdiv 1000000000 + d.tmod 1000000000 : Int) : ℚ) := by rw [h]
  rw [h2]; push_cast; ring

theorem recordResult_globals (m : Metrics) (r : TestResults) :
    (recordResult m r).runs = m.runs ∧ (recordResult m r).running = m.running ∧
      (recordResult m r).runTime = m.runTime ∧
      (recordResult m r).lastStartTime = m.lastStartTime ∧
      (recordResult m r).lastFinishTime = m.lastFinishTime ∧
      (recordResult m r).waitTime = m.waitTime := by
  simp [recordResult]

theorem recordResults_globals (rs : List TestResults) :
    ∀ m : Metrics, (recordResults m rs).runs = m.runs ∧
      (recordResults m rs).running = m.running ∧
      (recordResults m rs).runTime = m.runTime ∧
      (recordResults m rs).lastStartTime = m.lastStartTime ∧
      (recordResults m rs).lastFinishTime = m.lastFinishTime ∧
      (recordResults m rs).waitTime = m.waitTime := by
  induction rs with
  | nil => intro m; simp [recordResults]
  | cons r rs ih =>
    intro m
    have h1 := ih (recordResult m r)
    have h2 := recordResult_globals m r
    simp only [recordResults, List.foldl_cons] at h1 ⊢
    obtain ⟨a1, a2, a3, a4, a5, a6⟩ := h1
    obtain ⟨b1, b2, b3, b4, b5, b6⟩ := h2
    exact ⟨a1.trans b1, a2.trans b2, a3.trans b3, a4.trans b4, a5.trans b5, a6.trans b6⟩

/-- One result overwrites the eight series of its own label values, whatever they
held, and leaves every other series as it was. -/
theorem recordResult_agree (l : List String) (m m' : Metrics) (r : TestResults)
    (h : l = resultLabels r ∨ AgreeAt l m m') :
    AgreeAt l (recordResult m r) (recordResult m' r) := by
  by_cases hl : l = resultLabels r
  · simp [AgreeAt, recordResult, GaugeVec.Set, hl]
  · rcases h with h | h
    · exact absurd h hl
    · simpa [AgreeAt, recordResult, GaugeVec.Set, hl] using h

theorem recordResult_other (l : List String) (m : Metrics) (r : TestResults)
    (hl : l ≠ resultLabels r) : AgreeAt l (recordResult m r) m := by
  simp [AgreeAt, recordResult, GaugeVec.Set, hl]

theorem recordResults_agree (l : List String) (rs : List TestResults) :
    ∀ m m' : Metrics, (l ∈ rs.map resultLabels ∨ AgreeAt l m m') →
      AgreeAt l (recordResults m rs) (recordResults m' rs) := by
  induction rs with
  | nil =>
    intro m m' h
    simpa [recordResults] using h
  | cons r rs ih =>
    intro m m' h
    simp only [recordResults, List.foldl_cons]
    apply ih
    simp only [List.map_cons, List.mem_cons] at h
    rcases h with (h | h) | h
    · exact Or.inr (recordResult_agree l m m' r (Or.inl h))
    · exact Or.inl h
    · exact Or.inr (recordResult_agree l m m' r (Or.inr h))

theorem AgreeAt_trans (l : List String) (a b c : Metrics) (h1 : AgreeAt l a b)
    (h2 : AgreeAt l b c) : AgreeAt l a c := by
  obtain ⟨a1, a2, a3, a4, a5, a6, a7, a8⟩ := h1
  obtain ⟨b1, b2, b3, b4, b5, b6, b7, b8⟩ := h2
  exact ⟨a1.trans b1, a2.trans b2, a3.trans b3, a4.trans b4, a5.trans b5, a6.trans b6,
    a7.trans b7, a8.trans b8⟩

theorem recordResults_other (l : List String) (rs : List TestResults) :
    ∀ m : Metrics, l ∉ rs.map resultLabels → AgreeAt l (recordResults m rs) m := by
  induction rs with
  | nil =>
    intro m _
    simp [recordResults, AgreeAt]
  | cons r rs ih =>
    intro m h
    simp only [List.map_cons, List.mem_cons, not_or] at h
    simp only [recordResults, List.foldl_cons]
    exact AgreeAt_trans l _ _ _ (ih (recordResult m r) h.2) (recordResult_other l m r h.1)

/-- C7: the per-target update of `runSpeedTests` is idempotent. Applying the loop
over a result sequence to the registry it has produced gives the same registry:
every series of every gauge vector has the same value as after one application
(and the counter and plain gauges, which the loop does not write, are unchanged). -/
theorem recordResults_idempotent (m : Metrics) (rs : List TestResults) :
    recordResults (recordResults m rs) rs = recordResults m rs := by
  have hall : ∀ l, AgreeAt l (recordResults (recordResults m rs) rs) (recordResults m rs) := by
    intro l
    apply recordResults_agree
    by_cases hl : l ∈ rs.map resultLabels
    · exact Or.inl hl
    · exact Or.inr (recordResults_other l rs m hl)
  obtain ⟨g1, g2, g3, g4, g5, g6⟩ := recordResults_globals rs (recordResults m rs)
  apply Metrics.ext
  · exact g1
  · exact g2
  · exact g3
  · exact g4
  · exact g5
  · exact g6
  · funext l; exact (hall l).1
  · funext l; exact (hall l).2.1
  · funext l; exact (hall l).2.2.1
  · funext l; exact (hall l).2.2.2.1
  · funext l; exact (hall l).2.2.2.2.1
  · funext l; exact (hall l).2.2.2.2.2.1
  · funext l; exact (hall l).2.2.2.2.2.2.1
  · funext l; exact (hall l).2.2.2.2.2.2.2

/-- C4: a cycle in which the invocation for the only target, 200, fails still
writes per-target gauges. `RunTests` returns the zero `TestResults` for the failed
target, and `runSpeedTests` creates the series with label values `("0", "", "")`,
which did not exist before, in the gauge vectors and sets it to 0. -/
theorem runSpeedTests_writes_for_failed_target :
    World.initial.metrics.downloadSpeed ["0", "", ""] = none ∧
      World.initial.metrics.uploadBytes ["0", "", ""] = none ∧
      (runSpeedTests examples.runner200 examples.unmarshal examples.clockZero
        examples.cycleAllFail World.initial).metrics.downloadSpeed ["0", "", ""] = some 0 ∧
      (runSpeedTests examples.runner200 examples.unmarshal examples.clockZero
        examples.cycleAllFail World.initial).metrics.uploadBytes ["0", "", ""] = some 0 := by
  refine ⟨rfl, rfl, rfl, rfl⟩

theorem ofFloat64_fractional :
    time.Duration.ofFloat64 (21 / 2) = 10 ∧ time.Duration.ofFloat64 (1 / 2) = 0 := by
  constructor <;>
    (unfold time.Duration.ofFloat64; norm_num [time.minDuration, time.maxDuration])

/-- C5: the fraction of a millisecond is lost. For a result with a latency of
10.5 ms and a jitter of 0.5 ms, `runSpeedTests` sets the series of `ping_seconds` to
0.010 and the series of `ping_jitter_seconds` to 0, while the latency divided by
1000 is 0.0105 and the jitter divided by 1000 is 0.0005. -/
theorem recordResult_truncates_milliseconds (m : Metrics) :
    (recordResult m examples.fractional).ping (resultLabels examples.fractional)
        = some (1 / 100) ∧
      (recordResult m examples.fractional).jitter (resultLabels examples.fractional)
        = some 0 ∧
      examples.fractional.Ping.Latency / 1000 = 21 / 2000 ∧
      examples.fractional.Ping.Jitter / 1000 = 1 / 2000 := by
  have h1 : examples.fractional.Ping.Latency = 21 / 2 := rfl
  have h2 : examples.fractional.Ping.Jitter = 1 / 2 := rfl
  have h3 : time.Duration.mul 10 time.Millisecond = 10000000 := by decide
  have h4 : time.Duration.mul 0 time.Millisecond = 0 := by decide
  refine ⟨?_, ?_, ?_, ?_⟩
  · simp only [recordResult, GaugeVec.Set, if_true, h1, ofFloat64_fractional.1, h3, Seconds_eq]
    norm_num
  · simp only [recordResult, GaugeVec.Set, if_true, h2, ofFloat64_fractional.2, h4, Seconds_eq]
    norm_num
  · rw [h1]; norm_num
  · rw [h2]; norm_num

theorem runSpeedTests_closing (r : runner) (unmarshal : String → Except String TestResults)
    (now : Nat → time.Time) (env : CycleEnv) (w : World) (h : env.closing = true) :
    runSpeedTests r unmarshal now env w = w := by
  simp [runSpeedTests, h]

/-- A call of `runSpeedTests` that does not find the runner closing adds one to
the counter `runs`, runs the commands of one call of `RunTests` on the runner's
targets, and takes three readings of the clock. -/
theorem runSpeedTests_open (r : runner) (unmarshal : String → Except String TestResults)
    (now : Nat → time.Time) (env : CycleEnv) (w : World) (h : env.closing = false) :
    (runSpeedTests r unmarshal now env w).metrics.runs = w.metrics.runs + 1 ∧
      (runSpeedTests r unmarshal now env w).ran
        = w.ran ++ (RunTests env.tests unmarshal r.cmd r.serverIDs).ran ∧
      (runSpeedTests r unmarshal now env w).clock = w.clock + 3 := by
  refine ⟨?_, ?_, ?_⟩
  · simp only [runSpeedTests, h, Bool.false_eq_true, if_false]
    exact (recordResults_globals _ _).1
  · simp only [runSpeedTests, h, Bool.false_eq_true, if_false]
  · simp only [runSpeedTests, h, Bool.false_eq_true, if_false]

theorem flatMap_range_succ {α : Type} (f : Nat → List α) (n : Nat) :
    (List.range (n + 1)).flatMap f = f 0 ++ (List.range n).flatMap (fun i => f (i + 1)) := by
  rw [List.range_succ_eq_map]
  simp only [List.flatMap, List.map_cons, List.map_map, List.flatten_cons]
  rfl

/-- The loop of `runner.run` when the next `n` executions of `select` take the tick
case and the one after them the done case, and none of the `n` calls of
`runSpeedTests` finds the runner closing: the loop returns, the counter has grown
by `n`, and the commands run are those of `n` calls of `RunTests` on the runner's
targets, one per tick, in order. -/
theorem run_loop_spec (r : runner) (env : RunEnv) :
    ∀ (n fuel j : Nat) (s : RunState), n < fuel →
      (∀ i, i < n → env.select (j + i) = SelectCase.tick) →
      env.select (j + n) = SelectCase.done →
      (∀ i, i < n → (env.cycle (j + 1 + i)).closing = false) →
      ∃ s', runner.run.loop r env fuel j s = some s' ∧
        s'.world.metrics.runs = s.world.metrics.runs + n ∧
        s'.world.ran = s.world.ran ++ (List.range n).flatMap (fun i =>
          (RunTests (env.cycle (j + 1 + i)).tests env.unmarshal r.cmd r.serverIDs).ran) := by
  intro n
  induction n with
  | zero =>
    intro fuel j s hfuel _ hdone _
    obtain ⟨f, rfl⟩ : ∃ f, fuel = f + 1 := ⟨fuel - 1, by omega⟩
    refine ⟨s, ?_, by simp, by simp⟩
    simp only [Nat.add_zero] at hdone
    simp [runner.run.loop, hdone]
  | succ n ih =>
    intro fuel j s hfuel hticks hdone hopen
    obtain ⟨f, rfl⟩ : ∃ f, fuel = f + 1 := ⟨fuel - 1, by omega⟩
    have h0 : env.select j = SelectCase.tick := by simpa using hticks 0 (by omega)
    have hfirst : (env.cycle (j + 1)).closing = false := by simpa using hopen 0 (by omega)
    obtain ⟨s', hrun, hruns, hran⟩ := ih f (j + 1)
      { world := runSpeedTests r env.unmarshal env.now (env.cycle (j + 1))
          { metrics :=
              { s.world.metrics with
                waitTime := time.Duration.Seconds ((env.now s.world.clock).Sub s.start) }
            clock := s.world.clock + 1 + 1
            ran := s.world.ran }
        start := env.now (s.world.clock + 1) }
      (by omega)
      (fun i hi => by
        have := hticks (i + 1) (by omega)
        rw [← this]; congr 1; omega)
      (by rw [← hdone]; congr 1; omega)
      (fun i hi => by
        have := hopen (i + 1) (by omega)
        rw [← this]; congr 2; omega)
    obtain ⟨o1, o2, -⟩ := runSpeedTests_open r env.unmarshal env.now (env.cycle (j + 1))
      { metrics :=
          { s.world.metrics with
            waitTime := time.Duration.Seconds ((env.now s.world.clock).Sub s.start) }
        clock := s.world.clock + 1 + 1
        ran := s.world.ran } hfirst
    refine ⟨s', ?_, ?_, ?_⟩
    · simp only [runner.run.loop, h0]
      exact hrun
    · rw [hruns]
      simp only []
      rw [o1]
      push_cast
      ring
    · rw [hran, flatMap_range_succ]
      simp only []
      rw [o2]
      simp only [List.append_assoc, Nat.add_zero]
      congr 2
      apply congrArg
      funext i
      have e : j + 1 + 1 + i = j + 1 + (i + 1) := by omega
      rw [e]

/-- With a tick rate that is not positive `time.NewTicker` panics: `runner.run`
ends before the start-up cycle, whatever the environment does. -/
theorem run_panics (r : runner) (env : RunEnv) (fuel : Nat) (w : World)
    (hrate : r.tickRate ≤ 0) :
    runner.run r env fuel w = some (Except.error "non-positive interval for NewTicker") := by
  simp [runner.run, hrate]

/-- C8: for a runner with a positive tick rate, when the loop of `runner.run` takes
the tick case `k` times and then the done case, and none of the `k + 1` calls of
`runSpeedTests` finds the runner closing on entry, `runner.run` returns after
exactly `k + 1` cycles (the start-up one and one per tick): the counter `runs` has
grown by exactly `k + 1`, and the commands run are those of `k + 1` calls of
`RunTests` on the runner's targets, in order. A call of `runSpeedTests` that finds
the runner closing changes nothing: no metric, no command run, no clock reading. -/
theorem run_cycles (r : runner) (env : RunEnv) (k fuel : Nat) (w : World)
    (hrate : 0 < r.tickRate)
    (hfuel : k < fuel)
    (hticks : ∀ j, j < k → env.select j = SelectCase.tick)
    (hdone : env.select k = SelectCase.done)
    (hopen : ∀ j, j ≤ k → (env.cycle j).closing = false) :
    (∃ s, runner.run r env fuel w = some (Except.ok s) ∧
        s.world.metrics.runs = w.metrics.runs + ((k : ℚ) + 1) ∧
        s.world.ran = w.ran ++ (List.range (k + 1)).flatMap (fun j =>
          (RunTests (env.cycle j).tests env.unmarshal r.cmd r.serverIDs).ran)) ∧
      (∀ (cenv : CycleEnv) (w' : World), cenv.closing = true →
        runSpeedTests r env.unmarshal env.now cenv w' = w') := by
  refine ⟨?_, fun cenv w' h => runSpeedTests_closing r env.unmarshal env.now cenv w' h⟩
  obtain ⟨o1, o2, -⟩ := runSpeedTests_open r env.unmarshal env.now (env.cycle 0) w
    (hopen 0 (by omega))
  obtain ⟨s, hrun, hruns, hran⟩ := run_loop_spec r env k fuel 0
    { world :=
        { runSpeedTests r env.unmarshal env.now (env.cycle 0) w with
          clock := (runSpeedTests r env.unmarshal env.now (env.cycle 0) w).clock + 1 }
      start := env.now (runSpeedTests r env.unmarshal env.now (env.cycle 0) w).clock }
    hfuel (fun i hi => by simpa using hticks i hi) (by simpa using hdone)
    (fun i hi => by
      have := hopen (i + 1) (by omega)
      rw [← this]; congr 2; omega)
  have hnot : ¬ r.tickRate ≤ 0 := by omega
  refine ⟨s, ?_, ?_, ?_⟩
  · simp only [runner.run, hnot, if_false]
    rw [hrun]
    rfl
  · rw [hruns]
    simp only []
    rw [o1]
    ring
  · rw [hran, flatMap_range_succ]
    simp only []
    rw [o2]
    simp only [List.append_assoc, Nat.add_zero]
    congr 2
    apply congrArg
    funext i
    have e : 0 + 1 + i = i + 1 := by omega
    rw [e]

/-- Witness of C8: one tick before shutdown, as in the scenario of the
specification, gives two cycles: a counter of 2, and the command for target 200
run twice. -/
theorem run_cycles_witness :
    (∃ s, runner.run examples.runner200 (examples.ticksThenDone 1) 2 World.initial
          = some (Except.ok s) ∧
        s.world.metrics.runs = World.initial.metrics.runs + (((1 : Nat) : ℚ) + 1) ∧
        s.world.ran = World.initial.ran ++ (List.range (1 + 1)).flatMap (fun j =>
          (RunTests ((examples.ticksThenDone 1).cycle j).tests
            (examples.ticksThenDone 1).unmarshal examples.runner200.cmd
            examples.runner200.serverIDs).ran)) ∧
      (∀ (cenv : CycleEnv) (w' : World), cenv.closing = true →
        runSpeedTests examples.runner200 (examples.ticksThenDone 1).unmarshal
          (examples.ticksThenDone 1).now cenv w' = w') :=
  run_cycles examples.runner200 (examples.ticksThenDone 1) 1 2 World.initial (by decide)
    (by decide) (by decide) (by decide) (fun _ _ => rfl)

/-- C9: the first tick does not measure from the start of the previous cycle. In
the run of the example the start-up cycle begins with clock reading 0 (0 s, the
reading that `last_start_time` shows) and takes three readings; `start` is
initialised with the next reading, at 5 s, after the start-up cycle has returned.
With one tick, at 60 s, the value set on `wait_time_seconds` and left in the gauge
is 55, while the time from the start of the previous cycle to the tick is 60 s.
With two ticks, the second one at 120 s, the value left by the second tick is 60:
it is measured from the reading stored at the first tick just before its cycle
began (60 s), as the claim says. -/
theorem first_wait_not_from_cycle_start :
    (runSpeedTests examples.runner200 examples.unmarshal examples.clock
        examples.cycleAllFail World.initial).clock = 3 ∧
      (runSpeedTests examples.runner200 examples.unmarshal examples.clock
        examples.cycleAllFail World.initial).metrics.lastStartTime
          = ((examples.clock 0).Unix : ℚ) ∧
      (∃ s, runner.run examples.runner200 (examples.ticksThenDone 1) 2 World.initial
            = some (Except.ok s) ∧
          s.world.metrics.waitTime = 55 ∧
          time.Duration.Seconds ((examples.clock 4).Sub (examples.clock 0)) = 60 ∧
          s.world.metrics.waitTime
            ≠ time.Duration.Seconds ((examples.clock 4).Sub (examples.clock 0))) ∧
      (∃ s, runner.run examples.runner200 (examples.ticksThenDone 2) 3 World.initial
            = some (Except.ok s) ∧
          s.world.metrics.waitTime = 60 ∧
          time.Duration.Seconds ((examples.clock 9).Sub (examples.clock 5)) = 60) := by
  have h55 : time.Duration.Seconds 55000000000 = 55 := by rw [Seconds_eq]; norm_num
  have h60 : time.Duration.Seconds 60000000000 = 60 := by rw [Seconds_eq]; norm_num
  have hsub0 : (examples.clock 4).Sub (examples.clock 0) = 60000000000 := by decide
  have hsub5 : (examples.clock 9).Sub (examples.clock 5) = 60000000000 := by decide
  refine ⟨rfl, rfl, ⟨_, rfl, ?_, ?_, ?_⟩, ⟨_, rfl, ?_, ?_⟩⟩
  · exact h55
  · rw [hsub0, h60]
  · rw [hsub0, h60]
    show time.Duration.Seconds 55000000000 ≠ 60
    rw [h55]; norm_num
  · exact h60
  · rw [hsub5, h60]

end main

namespace time

theorem digitByte_ne_quote (n : Nat) (h : n < 10) : digitByte n ≠ '"' := by
  interval_cases n <;> decide

theorem fmtInt_loop_head (fuel : Nat) :
    ∀ (buf : List Char) (v : Nat), buf.head? ≠ some '"' →
      (fmtInt.loop fuel buf v).head? ≠ some '"' := by
  induction fuel with
  | zero => intro buf v h; simpa [fmtInt.loop] using h
  | succ fuel ih =>
    intro buf v h
    by_cases hv : v > 0
    · simp only [fmtInt.loop, hv, if_true]
      apply ih
      simpa using digitByte_ne_quote (v % 10) (Nat.mod_lt _ (by decide))
    · simpa [fmtInt.loop, hv] using h

theorem fmtInt_head (buf : List Char) (v : Nat) : (fmtInt buf v).head? ≠ some '"' := by
  unfold fmtInt
  by_cases hv : v = 0
  · simp [hv]
  · obtain ⟨f, rfl⟩ : ∃ f, v = f + 1 := ⟨v - 1, by omega⟩
    simp only [hv, if_false, fmtInt.loop, Nat.succ_pos, if_true, gt_iff_lt]
    apply fmtInt_loop_head
    simpa using digitByte_ne_quote ((f + 1) % 10) (Nat.mod_lt _ (by decide))

/-- The text of a duration never starts with a double quote: it starts with a
digit or with the minus sign. -/
theorem format_head (d : Int) : (Duration.format d).head? ≠ some '"' := by
  unfold Duration.format
  simp only []
  split_ifs <;> first
    | exact fmtInt_head _ _
    | (simp only [List.head?_cons]; decide)

end time

namespace speedtest

theorem HasPrefix_quote_false (cs : List Char) (h : cs.head? ≠ some '"') :
    strings.HasPrefix (String.mk cs) "\"" = false := by
  unfold strings.HasPrefix
  cases cs with
  | nil => rfl
  | cons c cs =>
    have hc : c ≠ '"' := by simpa using h
    have : ('"' == c) = false := by
      simp only [beq_eq_false_iff_ne, ne_eq]
      exact fun e => hc e.symm
    show List.isPrefixOf ['"'] (c :: cs) = false
    simp [List.isPrefixOf, this]

/-- C10: `MarshalJSON` writes the text of the duration without quotes, and
`UnmarshalJSON` rejects every text that does not start with a double quote. For the
duration of 30 minutes `MarshalJSON` returns the text 30m0s and `UnmarshalJSON`
returns the error `invalid duration1: 30m0s`; and for every duration `d`,
`UnmarshalJSON` applied to the bytes that `MarshalJSON` returns fails with the
error `invalid duration1` and leaves its receiver unchanged. -/
theorem jsonDuration_round_trip_fails :
    (jsonDuration.MarshalJSON { Duration := 1800000000000 } = ("30m0s", none)) ∧
      (∀ (ParseDuration : String → Except String Int) (recv : jsonDuration),
        jsonDuration.UnmarshalJSON ParseDuration recv
            (jsonDuration.MarshalJSON { Duration := 1800000000000 }).1
          = (recv, some "invalid duration1: 30m0s")) ∧
      (∀ (ParseDuration : String → Except String Int) (recv d : jsonDuration),
        jsonDuration.UnmarshalJSON ParseDuration recv (jsonDuration.MarshalJSON d).1
          = (recv, some ("invalid duration1: " ++ d.String))) := by
  have hall : ∀ (ParseDuration : String → Except String Int) (recv d : jsonDuration),
      jsonDuration.UnmarshalJSON ParseDuration recv (jsonDuration.MarshalJSON d).1
        = (recv, some ("invalid duration1: " ++ d.String)) := by
    intro P recv d
    have h : strings.HasPrefix d.String "\"" = false :=
      HasPrefix_quote_false _ (time.format_head d.Duration)
    simp [jsonDuration.UnmarshalJSON, jsonDuration.MarshalJSON, h]
  refine ⟨by decide, ?_, hall⟩
  intro P recv
  rw [hall P recv]
  have : jsonDuration.String { Duration := 1800000000000 } = "30m0s" := by decide
  rw [this]
  rfl

end speedtest
